import Mathlib

/-!
Shallow embedding of the memory card game backend: `GameSession` and the
session-level part of `GameServer` from src/server.py, and the routing core of
`LoadBalancer` from src/loadbalancer.py.

Modelling conventions:
* `random.shuffle` and `random.choice` are modelled by explicit parameters
  (the already-shuffled value list, the chosen index taken modulo the
  population size), so every definition is a pure function of its inputs.
* Sockets, logging, timestamps and broadcasts carry no game state and are
  dropped.  The timer threads (`hide_all_cards` in `start_game`,
  `hide_cards_later` in `reveal_card`) are modelled as pending actions stored
  in the session (`pendingHideAll`, `pendingHidePairs`) and fired by explicit
  steps whose bodies are the timer bodies.
* A Python `dict` preserves insertion order, so the player map is an
  association list in join order; assignment to an existing key replaces the
  entry in place, otherwise it appends.
* Python stores card objects in `self.revealed_cards`; since `self.cards` is
  never resized and entry `k` is only ever mutated in place, an object
  reference is exactly the index `k` into `self.cards`.
* A Python exception escaping `reveal_card` (IndexError on a very negative
  index during the guard, KeyError / ValueError inside the resolution) is the
  `pyError` result; mutations already performed before the raise are kept,
  exactly as for the mutable Python objects.
-/

inductive GameState where
  | waiting
  | inProgress
  | finished
deriving DecidableEq, Repr

/-- The payload strings of the `GameState` enum in src/server.py. -/
def GameState.value : GameState → String
  | .waiting => "waiting"
  | .inProgress => "in_progress"
  | .finished => "finished"

/-- `Card.__init__` (src/server.py lines 22-27). -/
structure Card where
  id : Nat
  value : String
  is_revealed : Bool
  is_matched : Bool
deriving DecidableEq, Repr

/-- `Player.__init__` (src/server.py lines 29-35); the socket is I/O and dropped. -/
structure Player where
  id : String
  name : String
  score : Nat
  is_turn : Bool
deriving DecidableEq, Repr

/-- `GameSession` state (src/server.py lines 37-48).  `created_at` and
`last_activity` are wall-clock timestamps used for nothing but logging /
unimplemented idle cleanup and are dropped.  `pendingHideAll` counts scheduled
easy-mode preview-hide timers; `pendingHidePairs` holds the card-index pairs of
scheduled mismatch-hide timers. -/
structure GameSession where
  room_id : String
  level : String
  players : List Player
  cards : List Card
  state : GameState
  current_player_id : Option String
  revealed_cards : List Nat
  pendingHideAll : Nat
  pendingHidePairs : List (List Nat)
deriving DecidableEq, Repr

/-- `initialize_cards` (src/server.py lines 50-54): cards are numbered from `i`
upward over the shuffled value list. -/
def mkCards : Nat → List String → List Card
  | _, [] => []
  | i, v :: vs =>
    { id := i, value := v, is_revealed := false, is_matched := false } :: mkCards (i + 1) vs

/-- `GameSession.__init__` + `initialize_cards`; `values` is the shuffled deck
(`random.shuffle` modelled as a parameter). -/
def mkSession (room level : String) (values : List String) : GameSession :=
  { room_id := room, level := level, players := [], cards := mkCards 0 values,
    state := GameState.waiting, current_player_id := none, revealed_cards := [],
    pendingHideAll := 0, pendingHidePairs := [] }

/-- `Player.__init__` for a fresh connection: score 0, not on turn, default
display name when none is given. -/
def mkPlayer (pid name : String) : Player :=
  { id := pid, name := if name = "" then "Player_" ++ pid.take 8 else name,
    score := 0, is_turn := false }

/-- `self.players[player.id] = player` on an insertion-ordered dict: replace in
place when the key exists, append otherwise. -/
def dictInsert (ps : List Player) (p : Player) : List Player :=
  if ps.any (fun q => q.id == p.id) then ps.map (fun q => if q.id = p.id then p else q)
  else ps ++ [p]

/-- In-place mutation of the card object at index `k` (a Python attribute
assignment through a list entry or a saved reference). -/
def modifyAt : List Card → Nat → (Card → Card) → List Card
  | [], _, _ => []
  | c :: cs, 0, f => f c :: cs
  | c :: cs, k + 1, f => c :: modifyAt cs k f

/-- `self.players[pid].score += 1`; `none` models the `KeyError` raised when
`pid` is not a key of the player dict. -/
def bumpScore : List Player → String → Option (List Player)
  | [], _ => none
  | p :: ps, pid =>
    if p.id = pid then some ({ p with score := p.score + 1 } :: ps)
    else (bumpScore ps pid).map (p :: ·)

/-- `self.players[pid].is_turn = b`; `none` models the `KeyError`. -/
def setTurn : List Player → String → Bool → Option (List Player)
  | [], _, _ => none
  | p :: ps, pid, b =>
    if p.id = pid then some ({ p with is_turn := b } :: ps)
    else (setTurn ps pid b).map (p :: ·)

/-- `list.index` (first occurrence); `none` models the `ValueError`. -/
def firstIdx : List String → String → Option Nat
  | [], _ => none
  | x :: xs, a => if x = a then some 0 else (firstIdx xs a).map (· + 1)

/-- `GameSession.switch_turn` (src/server.py lines 131-139). -/
def switch_turn (s : GameSession) : Option GameSession :=
  let pids := s.players.map (fun p => p.id)
  match s.current_player_id with
  | none => none
  | some cur =>
    match firstIdx pids cur with
    | none => none
    | some ci =>
      let ni := (ci + 1) % pids.length
      match setTurn s.players cur false with
      | none => none
      | some ps1 =>
        let nxt := pids.getD ni ""
        match setTurn ps1 nxt true with
        | none => none
        | some ps2 => some { s with players := ps2, current_player_id := some nxt }

/-- Stable descending insertion by score.  `finish_game` calls Python
`list.sort(key=lambda x: x[1], reverse=True)`, a stable sort; a stable sort for
a fixed total preorder is extensionally unique, so stable insertion sort is its
embedding. -/
def insertByScoreDesc (x : String × Nat) : List (String × Nat) → List (String × Nat)
  | [] => [x]
  | y :: ys => if y.2 ≤ x.2 then x :: y :: ys else y :: insertByScoreDesc x ys

def sortByScoreDesc : List (String × Nat) → List (String × Nat)
  | [] => []
  | x :: xs => insertByScoreDesc x (sortByScoreDesc xs)

/-- `GameSession.finish_game` (src/server.py lines 142-146): set the state to
finished and return the (pid, score) ranking; the caller in `reveal_card`
discards the returned ranking. -/
def finish_game (s : GameSession) : GameSession × List (String × Nat) :=
  ({ s with state := GameState.finished },
   sortByScoreDesc (s.players.map (fun p => (p.id, p.score))))

/-- Outcome of `reveal_card`: the response dict.  `success` carries the
revealed card's `id` and `value` and the optional `match` / `continue_turn`
fields; `pyError` is an escaped Python exception. -/
inductive RevealResult where
  | failure (msg : String)
  | pyError
  | success (cardId : Nat) (cardValue : String) (isMatch : Option Bool) (continueTurn : Option Bool)
deriving DecidableEq, Repr

/-- Python list indexing for `self.cards[card_id]`: a nonnegative index in
range is itself, a negative index wraps by the length, anything below `-len`
raises IndexError (`none`). -/
def pyIdx (n : Nat) (i : Int) : Option Nat :=
  if 0 ≤ i then (if i < (n : Int) then some i.toNat else none)
  else if 0 ≤ i + (n : Int) then some (i + (n : Int)).toNat else none

/-- The `len(self.revealed_cards) == 2` resolution block of `reveal_card`
(src/server.py lines 102-126).  `i`, `j` are the two unresolved card indices,
`rid`/`rval` the id and value of the card just revealed (already placed in the
response). -/
def resolvePair (s1 : GameSession) (i j : Nat) (player_id : String)
    (rid : Nat) (rval : String) : GameSession × RevealResult :=
  match s1.cards.get? i, s1.cards.get? j with
  | some ci, some cj =>
    if ci.value = cj.value then
      let cards2 := modifyAt (modifyAt s1.cards i (fun c => { c with is_matched := true })) j
          (fun c => { c with is_matched := true })
      match bumpScore s1.players player_id with
      | none => ({ s1 with cards := cards2 }, .pyError)
      | some ps =>
        let s2 := { s1 with cards := cards2, players := ps, revealed_cards := [] }
        (if s2.cards.all (fun c => c.is_matched) then (finish_game s2).1 else s2,
         .success rid rval (some true) (some true))
    else
      let s2 := { s1 with revealed_cards := [] }
      match switch_turn s2 with
      | none => (s2, .pyError)
      | some s3 =>
        let s4 := { s3 with pendingHidePairs := s3.pendingHidePairs ++ [[i, j]] }
        (if s4.cards.all (fun c => c.is_matched) then (finish_game s4).1 else s4,
         .success rid rval (some false) (some false))
  | _, _ => (s1, .pyError)

/-- `GameSession.reveal_card` (src/server.py lines 89-129).  The guard order is
Python's: turn/state first, then `card_id >= len(self.cards)` (no exception),
then the indexing `self.cards[card_id]` (negative wrap, possible IndexError),
then the already-matched / already-revealed rejection. -/
def reveal_card (s : GameSession) (card_id : Int) (player_id : String) :
    GameSession × RevealResult :=
  if ¬(s.current_player_id = some player_id ∧ s.state = GameState.inProgress) then
    (s, .failure "Not your turn")
  else if (s.cards.length : Int) ≤ card_id then
    (s, .failure "Invalid card selection")
  else
    match pyIdx s.cards.length card_id with
    | none => (s, .pyError)
    | some idx =>
      match s.cards.get? idx with
      | none => (s, .pyError)
      | some card =>
        if card.is_matched ∨ card.is_revealed then (s, .failure "Invalid card selection")
        else
          let cards1 := modifyAt s.cards idx (fun c => { c with is_revealed := true })
          let rc := s.revealed_cards ++ [idx]
          let s1 := { s with cards := cards1, revealed_cards := rc }
          match rc with
          | [i, j] => resolvePair s1 i j player_id card.id card.value
          | _ => (s1, .success card.id card.value none none)

/-- `GameSession.start_game` (src/server.py lines 65-87); `choice` models
`random.choice` over the joined player ids.  Note it is called on EVERY join
from the second one on, and only sets the chosen player's flag: it never clears
another player's `is_turn`.  In easy mode every card is revealed and one
preview-hide timer is scheduled. -/
def start_game (s : GameSession) (choice : Nat) : GameSession :=
  let s1 := { s with state := GameState.inProgress }
  let pids := s1.players.map (fun p => p.id)
  if pids.isEmpty then s1
  else
    let cur := pids.getD (choice % pids.length) ""
    let ps := (setTurn s1.players cur true).getD s1.players
    let s2 := { s1 with current_player_id := some cur, players := ps }
    if s2.level = "easy" then
      { s2 with cards := s2.cards.map (fun c => { c with is_revealed := true }),
                pendingHideAll := s2.pendingHideAll + 1 }
    else s2

/-- `GameSession.add_player` (src/server.py lines 56-62): capacity 4, and
`start_game` fires whenever the room has at least two players after the add. -/
def add_player (s : GameSession) (p : Player) (choice : Nat) : GameSession × Bool :=
  if s.players.length < 4 then
    let s1 := { s with players := dictInsert s.players p }
    if 2 ≤ s1.players.length then (start_game s1 choice, true) else (s1, true)
  else (s, false)

/-- Session-level effect of `GameServer.cleanup_client` (src/server.py lines
323-333): the player is deleted from the room's player dict.  The registry
bookkeeping (`client_to_game`, deleting an emptied room) lives outside the
session object. -/
def cleanup_player (s : GameSession) (pid : String) : GameSession :=
  if s.players.any (fun p => p.id == pid) then
    { s with players := s.players.filter (fun p => p.id != pid) }
  else s

/-- Body of the easy-mode `hide_all_cards` timer (src/server.py lines 78-85):
every card that is not matched AT FIRING TIME is hidden. -/
def hide_all_cards (s : GameSession) : GameSession :=
  { s with
    cards := s.cards.map (fun c => if c.is_matched then c else { c with is_revealed := false }),
    pendingHideAll := s.pendingHideAll - 1 }

/-- Body of the mismatch `hide_cards_later` timer (src/server.py lines
117-123): unconditionally hide the two saved card references. -/
def hide_cards_later (cs : List Card) (pair : List Nat) : List Card :=
  pair.foldl (fun acc k => modifyAt acc k (fun c => { c with is_revealed := false })) cs

/-- Fire the `k`-th scheduled mismatch-hide timer (one-shot: it is consumed). -/
def fireHidePair (s : GameSession) (k : Nat) : GameSession :=
  match s.pendingHidePairs.get? k with
  | none => s
  | some pr =>
    { s with cards := hide_cards_later s.cards pr,
             pendingHidePairs := s.pendingHidePairs.eraseIdx k }

/-- One entry of the `cards` list in the `get_game_state` snapshot. -/
structure CardView where
  id : Nat
  revealed : Bool
  value : Option String
  matched : Bool
deriving DecidableEq, Repr

/-- One entry of the `players` map in the `get_game_state` snapshot. -/
structure PlayerView where
  pid : String
  name : String
  score : Nat
  is_turn : Bool
deriving DecidableEq, Repr

/-- The serialized `get_game_state` snapshot. -/
structure Snapshot where
  room_id : String
  level : String
  state : String
  players : List PlayerView
  cards : List CardView
  current_player : Option String
deriving DecidableEq, Repr

/-- `GameSession.get_game_state` (src/server.py lines 148-169). -/
def get_game_state (s : GameSession) : Snapshot :=
  { room_id := s.room_id, level := s.level, state := s.state.value,
    players := s.players.map (fun p =>
      { pid := p.id, name := p.name, score := p.score, is_turn := p.is_turn }),
    cards := s.cards.map (fun c =>
      { id := c.id, revealed := c.is_revealed || c.is_matched,
        value := if c.is_revealed || c.is_matched then some c.value else none,
        matched := c.is_matched }),
    current_player := s.current_player_id }

/-- `ServerHealth` (src/loadbalancer.py lines 13-20).  `response_time` is a
Python float set by health checks; it is modelled over `Rat` (no claim depends
on rounding). -/
structure ServerHealth where
  host : String
  port : Nat
  is_healthy : Bool
  connection_count : Nat
  response_time : Rat
deriving DecidableEq, Repr

/-- The routing state of `LoadBalancer` (src/loadbalancer.py lines 40-56):
the server pool, the strategy name, and the round-robin counter.  There is no
room or player table of any kind in the source. -/
structure LoadBalancer where
  servers : List ServerHealth
  current_strategy : String
  round_robin_index : Nat
deriving DecidableEq, Repr

def get_healthy_servers (lb : LoadBalancer) : List ServerHealth :=
  lb.servers.filter (fun sv => sv.is_healthy)

/-- Python `min(xs, key=f)`: the first element attaining the minimum key. -/
def minByFirst (f : ServerHealth → Rat) : List ServerHealth → Option ServerHealth
  | [] => none
  | x :: xs =>
    match minByFirst f xs with
    | none => some x
    | some m => if f x ≤ f m then some x else some m

/-- `LoadBalancer._round_robin` (src/loadbalancer.py lines 70-77). -/
def roundRobin (lb : LoadBalancer) : Option ServerHealth × LoadBalancer :=
  let hs := get_healthy_servers lb
  if hs.isEmpty then (none, lb)
  else (hs.get? (lb.round_robin_index % hs.length),
        { lb with round_robin_index := lb.round_robin_index + 1 })

/-- `LoadBalancer._least_connections` (src/loadbalancer.py lines 79-84). -/
def leastConnections (lb : LoadBalancer) : Option ServerHealth :=
  minByFirst (fun sv => (sv.connection_count : Rat)) (get_healthy_servers lb)

/-- `LoadBalancer._weighted_response_time` (src/loadbalancer.py lines 86-95). -/
def weightedResponseTime (lb : LoadBalancer) : Option ServerHealth :=
  minByFirst (fun sv => sv.response_time + (sv.connection_count : Rat) * (1 / 10))
    (get_healthy_servers lb)

/-- `LoadBalancer.select_server` (src/loadbalancer.py lines 97-99): the
strategy-table lookup with `_least_connections` as the default.  It takes no
request data: `proxy_connection` calls it once per incoming TCP connection and
then forwards bytes blindly. -/
def select_server (lb : LoadBalancer) : Option ServerHealth × LoadBalancer :=
  if lb.current_strategy = "round_robin" then roundRobin lb
  else if lb.current_strategy = "weighted_response_time" then (weightedResponseTime lb, lb)
  else (leastConnections lb, lb)

/-- The session-level operations a room can undergo: a join (with the
`random.choice` index for a possible `start_game`), a reveal, the firing of an
easy-mode preview-hide timer, the firing of the `k`-th scheduled mismatch-hide
timer, and a client cleanup. -/
inductive Op where
  | join (pid name : String) (choice : Nat)
  | reveal (card_id : Int) (pid : String)
  | fireHideAll
  | firePair (k : Nat)
  | cleanup (pid : String)

def step (s : GameSession) : Op → GameSession
  | .join pid name choice => (add_player s (mkPlayer pid name) choice).1
  | .reveal cid pid => (reveal_card s cid pid).1
  | .fireHideAll => if s.pendingHideAll = 0 then s else hide_all_cards s
  | .firePair k => fireHidePair s k
  | .cleanup pid => cleanup_player s pid

def runTrace (s : GameSession) (ops : List Op) : GameSession := ops.foldl step s

def isJoinOrReveal : Op → Bool
  | .join _ _ _ => true
  | .reveal _ _ => true
  | _ => false

def joinPids : List Op → List String
  | [] => []
  | .join pid _ _ :: rest => pid :: joinPids rest
  | _ :: rest => joinPids rest

def sumScores (s : GameSession) : Nat := (s.players.map (fun p => p.score)).sum

def countMatched (cs : List Card) : Nat := (cs.filter (fun c => c.is_matched)).length

def countTurn (ps : List Player) : Nat := (ps.filter (fun p => p.is_turn)).length

/-- Score of player `pid` as read off the player dict. -/
def scoreOf (ps : List Player) (pid : String) : Nat :=
  ((ps.find? (fun p => p.id == pid)).map (fun p => p.score)).getD 0

/-- Turn flag of player `pid` as read off the player dict. -/
def turnOf (ps : List Player) (pid : String) : Bool :=
  ((ps.find? (fun p => p.id == pid)).map (fun p => p.is_turn)).getD false

/-- The player after `pid` in join order, with wrap-around: the successor
`switch_turn` hands the turn to. -/
def nextAfter (ps : List Player) (pid : String) : String :=
  let pids := ps.map (fun p => p.id)
  match firstIdx pids pid with
  | some k => pids.getD ((k + 1) % pids.length) ""
  | none => ""

/-- The score/match bookkeeping invariant: twice the score total equals the
matched-card count; every unresolved index points at a revealed, unmatched
card; the unresolved list has at most one entry between requests; and the
current player, when set, is a key of the player dict. -/
def SessionInv (s : GameSession) : Prop :=
  2 * sumScores s = countMatched s.cards ∧
  (∀ i ∈ s.revealed_cards, ∃ c, s.cards.get? i = some c ∧
      c.is_revealed = true ∧ c.is_matched = false) ∧
  s.revealed_cards.length ≤ 1 ∧
  (∀ c, s.current_player_id = some c → c ∈ s.players.map (fun p => p.id))

/-- A 16-card deck as `initialize_cards` builds it (identity permutation of the
shuffle). -/
def shuffledDeck : List String :=
  ["card_0", "card_1", "card_2", "card_3", "card_4", "card_5", "card_6", "card_7",
   "card_0", "card_1", "card_2", "card_3", "card_4", "card_5", "card_6", "card_7"]

/-- Two players join a normal room (the random start pick lands on p1), then
p1's connection is cleaned up. -/
def c1Trace : GameSession :=
  runTrace (mkSession "ROOM1" "normal" shuffledDeck)
    [Op.join "p1" "" 0, Op.join "p2" "" 0, Op.cleanup "p1"]

/-- A normal room right after two players joined (p1 on turn). -/
def c2Session : GameSession :=
  runTrace (mkSession "ROOM2" "normal" shuffledDeck)
    [Op.join "p1" "" 0, Op.join "p2" "" 0]

/-- A normal room where p1 is mid-pick: card 0 is revealed and unresolved. -/
def c3Session : GameSession :=
  runTrace (mkSession "ROOM3" "normal" shuffledDeck)
    [Op.join "p1" "" 0, Op.join "p2" "" 0, Op.reveal 0 "p1"]

def lbServerA : ServerHealth :=
  { host := "localhost", port := 8888, is_healthy := true, connection_count := 0,
    response_time := 0 }

def lbServerB : ServerHealth :=
  { host := "localhost", port := 8889, is_healthy := true, connection_count := 0,
    response_time := 0 }

/-- A round-robin balancer over two healthy backends. -/
def lbRR : LoadBalancer :=
  { servers := [lbServerA, lbServerB], current_strategy := "round_robin",
    round_robin_index := 0 }

/-- Two joins in a normal room with the start pick landing on p1. -/
def c5Two : GameSession :=
  runTrace (mkSession "ROOM5" "normal" shuffledDeck) [Op.join "p1" "" 0, Op.join "p2" "" 0]

/-- The same room after a third player joins while the game is in progress
(`start_game` fires again and its random pick lands on p2). -/
def c5Three : GameSession := step c5Two (Op.join "p3" "" 1)

/-- Easy room: two players join (preview fires and expires), p1 reveals card 0,
then a third player joins — `start_game` re-runs, re-revealing the whole deck
and scheduling a second preview-hide — the new preview expires (hiding card 0,
which is still in the unresolved list), and p1 reveals card 0 again: the
unresolved list is the same card twice and it is "matched" with itself. -/
def c6Trace : GameSession :=
  runTrace (mkSession "ROOM6" "easy" shuffledDeck)
    [Op.join "p1" "" 0, Op.join "p2" "" 0, Op.fireHideAll, Op.reveal 0 "p1",
     Op.join "p3" "" 0, Op.fireHideAll, Op.reveal 0 "p1"]

/-- An in-progress session in which every card except the unresolved card 0 and
the hidden card 8 (its pair) is already matched; p1 is on turn with 6 pairs,
p2 has 1. -/
def c7Session : GameSession :=
  { room_id := "ROOM7", level := "normal",
    players := [{ id := "p1", name := "P1", score := 6, is_turn := true },
                { id := "p2", name := "P2", score := 1, is_turn := false }],
    cards :=
      [{ id := 0, value := "card_0", is_revealed := true, is_matched := false },
       { id := 1, value := "card_1", is_revealed := true, is_matched := true },
       { id := 2, value := "card_2", is_revealed := true, is_matched := true },
       { id := 3, value := "card_3", is_revealed := true, is_matched := true },
       { id := 4, value := "card_4", is_revealed := true, is_matched := true },
       { id := 5, value := "card_5", is_revealed := true, is_matched := true },
       { id := 6, value := "card_6", is_revealed := true, is_matched := true },
       { id := 7, value := "card_7", is_revealed := true, is_matched := true },
       { id := 8, value := "card_0", is_revealed := false, is_matched := false },
       { id := 9, value := "card_1", is_revealed := true, is_matched := true },
       { id := 10, value := "card_2", is_revealed := true, is_matched := true },
       { id := 11, value := "card_3", is_revealed := true, is_matched := true },
       { id := 12, value := "card_4", is_revealed := true, is_matched := true },
       { id := 13, value := "card_5", is_revealed := true, is_matched := true },
       { id := 14, value := "card_6", is_revealed := true, is_matched := true },
       { id := 15, value := "card_7", is_revealed := true, is_matched := true }],
    state := GameState.inProgress, current_player_id := some "p1",
    revealed_cards := [0], pendingHideAll := 0, pendingHidePairs := [] }

/-- A session with a matched pair (0 and 8), a revealed-unresolved card 1 and
everything else hidden: exercises all three card shapes of the snapshot. -/
def c8Session : GameSession :=
  runTrace (mkSession "ROOM8" "normal" shuffledDeck)
    [Op.join "p1" "" 0, Op.join "p2" "" 0, Op.reveal 0 "p1", Op.reveal 8 "p1",
     Op.reveal 1 "p1"]

/-- p1 earns a pair, then rejoins the room: the dict assignment replaces the
player object with a fresh score-0 one (and `start_game` fires again). -/
def c10Ops : List Op :=
  [Op.join "p1" "" 0, Op.join "p2" "" 0, Op.reveal 0 "p1", Op.reveal 8 "p1",
   Op.join "p1" "" 0]

def c10Trace : GameSession := runTrace (mkSession "ROOMX" "normal" shuffledDeck) c10Ops

/-- A joins-and-reveals history with distinct join ids: two joins and a
matching pair of reveals. -/
def c10WitnessOps : List Op :=
  [Op.join "p1" "" 0, Op.join "p2" "" 0, Op.reveal 0 "p1", Op.reveal 8 "p1"]

/-! ### Basic lemmas about the list primitives -/

theorem get?_modifyAt (f : Card → Card) : ∀ (cs : List Card) (k n : Nat),
    (modifyAt cs k f).get? n = if n = k then (cs.get? n).map f else cs.get? n := by
  intro cs
  induction cs with
  | nil => intro k n; simp [modifyAt]
  | cons c cs ih =>
    intro k n
    cases k with
    | zero => cases n <;> simp [modifyAt]
    | succ k =>
      cases n with
      | zero => simp [modifyAt]
      | succ n =>
        simp only [modifyAt, List.get?_cons_succ, add_left_inj]
        exact ih k n

theorem length_modifyAt (f : Card → Card) : ∀ (cs : List Card) (k : Nat),
    (modifyAt cs k f).length = cs.length := by
  intro cs
  induction cs with
  | nil => intro k; simp [modifyAt]
  | cons c cs ih =>
    intro k
    cases k with
    | zero => simp [modifyAt]
    | succ k => simp [modifyAt, ih k]

theorem countMatched_cons (c : Card) (cs : List Card) :
    countMatched (c :: cs) = (if c.is_matched then 1 else 0) + countMatched cs := by
  by_cases h : c.is_matched
  · simp [countMatched, List.filter_cons, h]
    omega
  · simp [countMatched, List.filter_cons, h]

theorem countMatched_modifyAt_pres (f : Card → Card)
    (hf : ∀ c, (f c).is_matched = c.is_matched) :
    ∀ (cs : List Card) (k : Nat), countMatched (modifyAt cs k f) = countMatched cs := by
  intro cs
  induction cs with
  | nil => intro k; simp [modifyAt]
  | cons c cs ih =>
    intro k
    cases k with
    | zero => simp [modifyAt, countMatched_cons, hf]
    | succ k => simp [modifyAt, countMatched_cons, ih k]

theorem countMatched_modifyAt_mark :
    ∀ (cs : List Card) (k : Nat) (c : Card), cs.get? k = some c → c.is_matched = false →
      countMatched (modifyAt cs k (fun d => { d with is_matched := true })) =
        countMatched cs + 1 := by
  intro cs
  induction cs with
  | nil => intro k c h _; simp at h
  | cons a cs ih =>
    intro k c h hm
    cases k with
    | zero =>
      simp only [List.get?_cons_zero, Option.some.injEq] at h
      subst h
      simp [modifyAt, countMatched_cons, hm]
      omega
    | succ k =>
      simp only [List.get?_cons_succ] at h
      simp only [modifyAt]
      rw [countMatched_cons, countMatched_cons, ih k c h hm]
      omega

theorem countMatched_map_pres (f : Card → Card)
    (hf : ∀ c, (f c).is_matched = c.is_matched) :
    ∀ cs : List Card, countMatched (cs.map f) = countMatched cs := by
  intro cs
  induction cs with
  | nil => simp [countMatched]
  | cons c cs ih => simp [countMatched_cons, hf, ih]

theorem countMatched_mkCards : ∀ (i : Nat) (vs : List String),
    countMatched (mkCards i vs) = 0 := by
  intro i vs
  induction vs generalizing i with
  | nil => simp [mkCards, countMatched]
  | cons v vs ih => simp [mkCards, countMatched_cons, ih]

/-! ### Lemmas about the player-dict primitives -/

theorem bumpScore_some : ∀ (ps : List Player) (pid : String), (∃ p ∈ ps, p.id = pid) →
    ∃ ps', bumpScore ps pid = some ps' ∧
      ps'.map (fun p => p.id) = ps.map (fun p => p.id) ∧
      ps'.map (fun p => (p.id, p.is_turn)) = ps.map (fun p => (p.id, p.is_turn)) ∧
      (ps'.map (fun p => p.score)).sum = (ps.map (fun p => p.score)).sum + 1 := by
  intro ps
  induction ps with
  | nil => intro pid h; simp at h
  | cons p ps ih =>
    intro pid h
    by_cases hp : p.id = pid
    · refine ⟨{ p with score := p.score + 1 } :: ps, by simp [bumpScore, hp], by simp, by simp, ?_⟩
      simp
      omega
    · have h' : ∃ q ∈ ps, q.id = pid := by
        obtain ⟨q, hq, hqid⟩ := h
        rcases List.mem_cons.mp hq with rfl | hq'
        · exact absurd hqid hp
        · exact ⟨q, hq', hqid⟩
      obtain ⟨ps', h1, h2, h3, h4⟩ := ih pid h'
      refine ⟨p :: ps', by simp [bumpScore, hp, h1], by simp [h2], by simp [h3], ?_⟩
      simp [h4]
      omega

theorem bumpScore_scoreOf : ∀ (ps ps' : List Player) (pid : String),
    bumpScore ps pid = some ps' →
    scoreOf ps' pid = scoreOf ps pid + 1 ∧
    ∀ q, ¬ q = pid → scoreOf ps' q = scoreOf ps q := by
  intro ps
  induction ps with
  | nil => intro ps' pid h; simp [bumpScore] at h
  | cons p ps ih =>
    intro ps' pid h
    by_cases hp : p.id = pid
    · simp only [bumpScore, if_pos hp, Option.some.injEq] at h
      subst h
      constructor
      · simp [scoreOf, List.find?_cons, hp]
      · intro q hq
        have hpq : ¬ p.id = q := fun hh => hq (hp ▸ hh ▸ rfl)
        simp [scoreOf, List.find?_cons, hpq]
    · simp only [bumpScore, if_neg hp, Option.map_eq_some'] at h
      obtain ⟨ps'', h1, h2⟩ := h
      subst h2
      obtain ⟨ha, hb⟩ := ih ps'' pid h1
      have hbp : (p.id == pid) = false := by simpa using hp
      constructor
      · simp only [scoreOf, List.find?_cons, hbp]
        simpa [scoreOf] using ha
      · intro q hq
        by_cases hpq : p.id = q
        · simp [scoreOf, List.find?_cons, hpq]
        · have hbq : (p.id == q) = false := by simpa using hpq
          simp only [scoreOf, List.find?_cons, hbq]
          simpa [scoreOf] using hb q hq

theorem setTurn_some : ∀ (ps : List Player) (pid : String) (b : Bool),
    (∃ p ∈ ps, p.id = pid) →
    ∃ ps', setTurn ps pid b = some ps' ∧
      ps'.map (fun p => p.id) = ps.map (fun p => p.id) ∧
      ps'.map (fun p => p.score) = ps.map (fun p => p.score) := by
  intro ps
  induction ps with
  | nil => intro pid b h; simp at h
  | cons p ps ih =>
    intro pid b h
    by_cases hp : p.id = pid
    · exact ⟨{ p with is_turn := b } :: ps, by simp [setTurn, hp], by simp, by simp⟩
    · have h' : ∃ q ∈ ps, q.id = pid := by
        obtain ⟨q, hq, hqid⟩ := h
        rcases List.mem_cons.mp hq with rfl | hq'
        · exact absurd hqid hp
        · exact ⟨q, hq', hqid⟩
      obtain ⟨ps', h1, h2, h3⟩ := ih pid b h'
      exact ⟨p :: ps', by simp [setTurn, hp, h1], by simp [h2], by simp [h3]⟩

theorem setTurn_spec : ∀ (ps ps' : List Player) (pid : String) (b : Bool),
    setTurn ps pid b = some ps' →
    ps'.map (fun p => p.id) = ps.map (fun p => p.id) ∧
    ps'.map (fun p => p.score) = ps.map (fun p => p.score) := by
  intro ps
  induction ps with
  | nil => intro ps' pid b h; simp [setTurn] at h
  | cons p ps ih =>
    intro ps' pid b h
    by_cases hp : p.id = pid
    · simp only [setTurn, if_pos hp, Option.some.injEq] at h
      subst h
      simp
    · simp only [setTurn, if_neg hp, Option.map_eq_some'] at h
      obtain ⟨ps'', h1, h2⟩ := h
      subst h2
      obtain ⟨ha, hb⟩ := ih ps'' pid b h1
      simp [ha, hb]

theorem setTurn_turnOf : ∀ (ps ps' : List Player) (pid : String) (b : Bool),
    setTurn ps pid b = some ps' →
    turnOf ps' pid = b ∧ ∀ q, ¬ q = pid → turnOf ps' q = turnOf ps q := by
  intro ps
  induction ps with
  | nil => intro ps' pid b h; simp [setTurn] at h
  | cons p ps ih =>
    intro ps' pid b h
    by_cases hp : p.id = pid
    · simp only [setTurn, if_pos hp, Option.some.injEq] at h
      subst h
      constructor
      · simp [turnOf, List.find?_cons, hp]
      · intro q hq
        have hpq : ¬ p.id = q := fun hh => hq (hp ▸ hh ▸ rfl)
        simp [turnOf, List.find?_cons, hpq]
    · simp only [setTurn, if_neg hp, Option.map_eq_some'] at h
      obtain ⟨ps'', h1, h2⟩ := h
      subst h2
      obtain ⟨ha, hb⟩ := ih ps'' pid b h1
      have hbp : (p.id == pid) = false := by simpa using hp
      constructor
      · simp only [turnOf, List.find?_cons, hbp]
        simpa [turnOf] using ha
      · intro q hq
        by_cases hpq : p.id = q
        · simp [turnOf, List.find?_cons, hpq]
        · have hbq : (p.id == q) = false := by simpa using hpq
          simp only [turnOf, List.find?_cons, hbq]
          simpa [turnOf] using hb q hq

theorem firstIdx_lt_length : ∀ (xs : List String) (a : String) (k : Nat),
    firstIdx xs a = some k → k < xs.length := by
  intro xs
  induction xs with
  | nil => intro a k h; simp [firstIdx] at h
  | cons x xs ih =>
    intro a k h
    by_cases hx : x = a
    · simp only [firstIdx, if_pos hx, Option.some.injEq] at h
      subst h
      simp
    · simp only [firstIdx, if_neg hx, Option.map_eq_some'] at h
      obtain ⟨m, h1, h2⟩ := h
      have := ih a m h1
      simp only [List.length_cons]
      omega

theorem getD_mem_str : ∀ (xs : List String) (n : Nat), n < xs.length → xs.getD n "" ∈ xs := by
  intro xs
  induction xs with
  | nil => intro n h; simp at h
  | cons x xs ih =>
    intro n h
    cases n with
    | zero => simp [List.getD]
    | succ n =>
      have hn : n < xs.length := by simpa using h
      simp only [List.getD_cons_succ]
      exact List.mem_cons_of_mem x (ih n hn)

theorem dictInsert_fresh (ps : List Player) (p : Player)
    (h : ∀ q ∈ ps, ¬ q.id = p.id) : dictInsert ps p = ps ++ [p] := by
  have hany : ps.any (fun q => q.id == p.id) = false := by
    simp only [List.any_eq_false]
    intro q hq
    simpa using h q hq
  simp [dictInsert, hany]

theorem switch_turn_spec : ∀ (s s' : GameSession), switch_turn s = some s' →
    s'.room_id = s.room_id ∧ s'.level = s.level ∧ s'.cards = s.cards ∧
    s'.state = s.state ∧ s'.revealed_cards = s.revealed_cards ∧
    s'.pendingHideAll = s.pendingHideAll ∧ s'.pendingHidePairs = s.pendingHidePairs ∧
    s'.players.map (fun p => p.id) = s.players.map (fun p => p.id) ∧
    s'.players.map (fun p => p.score) = s.players.map (fun p => p.score) ∧
    ∃ c, s'.current_player_id = some c ∧ c ∈ s.players.map (fun p => p.id) := by
  intro s s' h
  unfold switch_turn at h
  split at h
  · simp at h
  next cur hcur =>
    try dsimp only at h
    split at h
    · simp at h
    next ci hfi =>
      try dsimp only at h
      split at h
      · simp at h
      next ps1 hst1 =>
        try dsimp only at h
        split at h
        · simp at h
        next ps2 hst2 =>
          simp only [Option.some.injEq] at h
          subst h
          obtain ⟨hid1, hsc1⟩ := setTurn_spec s.players ps1 cur false hst1
          obtain ⟨hid2, hsc2⟩ := setTurn_spec ps1 ps2 _ true hst2
          have hlen : ci < (s.players.map (fun p => p.id)).length :=
            firstIdx_lt_length _ cur ci hfi
          have hmem : (s.players.map (fun p => p.id)).getD
              ((ci + 1) % (s.players.map (fun p => p.id)).length) "" ∈
              s.players.map (fun p => p.id) := by
            apply getD_mem_str
            exact Nat.mod_lt _ (by omega)
          dsimp only
          refine ⟨rfl, rfl, rfl, rfl, rfl, rfl, rfl, ?_, ?_, ?_⟩
          · rw [hid2, hid1]
          · rw [hsc2, hsc1]
          · exact ⟨_, rfl, hmem⟩

/-! ### Lemmas about the stable descending sort -/

theorem perm_insertByScoreDesc (x : String × Nat) :
    ∀ l : List (String × Nat), List.Perm (insertByScoreDesc x l) (x :: l) := by
  intro l
  induction l with
  | nil => simp [insertByScoreDesc]
  | cons y ys ih =>
    by_cases h : y.2 ≤ x.2
    · simp [insertByScoreDesc, h]
    · simp only [insertByScoreDesc, if_neg h]
      exact (ih.cons y).trans (List.Perm.swap x y ys)

theorem perm_sortByScoreDesc : ∀ l : List (String × Nat),
    List.Perm (sortByScoreDesc l) l := by
  intro l
  induction l with
  | nil => simp [sortByScoreDesc]
  | cons x xs ih =>
    simp only [sortByScoreDesc]
    exact (perm_insertByScoreDesc x (sortByScoreDesc xs)).trans (ih.cons x)

theorem mem_insertByScoreDesc (x a : String × Nat) (l : List (String × Nat)) :
    a ∈ insertByScoreDesc x l ↔ a = x ∨ a ∈ l := by
  rw [(perm_insertByScoreDesc x l).mem_iff]
  simp

theorem pairwise_insertByScoreDesc (x : String × Nat) :
    ∀ l : List (String × Nat), List.Pairwise (fun a b => b.2 ≤ a.2) l →
      List.Pairwise (fun a b => b.2 ≤ a.2) (insertByScoreDesc x l) := by
  intro l
  induction l with
  | nil => intro _; simp [insertByScoreDesc]
  | cons y ys ih =>
    intro hp
    rw [List.pairwise_cons] at hp
    obtain ⟨hy, hys⟩ := hp
    by_cases h : y.2 ≤ x.2
    · simp only [insertByScoreDesc, if_pos h]
      rw [List.pairwise_cons]
      refine ⟨?_, List.pairwise_cons.mpr ⟨hy, hys⟩⟩
      intro z hz
      rcases List.mem_cons.mp hz with rfl | hz'
      · exact h
      · exact le_trans (hy z hz') h
    · simp only [insertByScoreDesc, if_neg h]
      rw [List.pairwise_cons]
      refine ⟨?_, ih hys⟩
      intro z hz
      rcases (mem_insertByScoreDesc x z ys).mp hz with rfl | hz'
      · omega
      · exact hy z hz'

theorem sorted_sortByScoreDesc : ∀ l : List (String × Nat),
    List.Pairwise (fun a b => b.2 ≤ a.2) (sortByScoreDesc l) := by
  intro l
  induction l with
  | nil => simp [sortByScoreDesc]
  | cons x xs ih => exact pairwise_insertByScoreDesc x (sortByScoreDesc xs) ih

theorem filter_insertByScoreDesc (x : String × Nat) (n : Nat) :
    ∀ l : List (String × Nat),
      (insertByScoreDesc x l).filter (fun y => y.2 == n) =
        (x :: l).filter (fun y => y.2 == n) := by
  intro l
  induction l with
  | nil => rfl
  | cons y ys ih =>
    by_cases h : y.2 ≤ x.2
    · simp [insertByScoreDesc, h]
    · simp only [insertByScoreDesc, if_neg h]
      by_cases hy : y.2 = n
      · by_cases hx : x.2 = n
        · omega
        · simp [List.filter_cons, hy, hx, ih]
      · simp [List.filter_cons, hy, ih]

theorem filter_sortByScoreDesc (n : Nat) : ∀ l : List (String × Nat),
    (sortByScoreDesc l).filter (fun y => y.2 == n) = l.filter (fun y => y.2 == n) := by
  intro l
  induction l with
  | nil => rfl
  | cons x xs ih =>
    simp only [sortByScoreDesc]
    rw [filter_insertByScoreDesc]
    simp [List.filter_cons, ih]

/-! ### Lemmas about Python indexing and the pending-pair list -/

theorem pyIdx_lt (n : Nat) (i : Int) (k : Nat) (h : pyIdx n i = some k) : k < n := by
  unfold pyIdx at h
  split at h
  · split at h
    · simp only [Option.some.injEq] at h
      omega
    · simp at h
  · split at h
    · simp only [Option.some.injEq] at h
      omega
    · simp at h

theorem pyIdx_nonneg (n : Nat) (i : Int) (h0 : 0 ≤ i) (hn : i < (n : Int)) :
    pyIdx n i = some i.toNat := by
  unfold pyIdx
  rw [if_pos h0, if_pos hn]

theorem eraseIdx_concat_self : ∀ (l : List (List Nat)) (a : List Nat),
    (l ++ [a]).eraseIdx l.length = l := by
  intro l a
  induction l with
  | nil => rfl
  | cons x xs ih => simp [List.eraseIdx_cons_succ, ih]

theorem get?_modifyAt_self (f : Card → Card) (cs : List Card) (k : Nat) :
    (modifyAt cs k f).get? k = (cs.get? k).map f := by
  rw [get?_modifyAt, if_pos rfl]

theorem get?_modifyAt_ne (f : Card → Card) (cs : List Card) (k n : Nat) (h : ¬ n = k) :
    (modifyAt cs k f).get? n = cs.get? n := by
  rw [get?_modifyAt, if_neg h]

/-! ### Branch equations for `reveal_card` -/

/-- Evaluation of `reveal_card` on the accepted second pick of a MATCHING pair:
the guards pass, the card is revealed, the unresolved list reaches two entries
with equal values, both cards are marked matched, the acting player's score is
bumped, the list is cleared and the turn is kept. -/
theorem reveal_match_eq (s : GameSession) (cid : Int) (pid : String) (i : Nat)
    (ci cj : Card) (ps' : List Player)
    (hstate : s.state = GameState.inProgress)
    (hcur : s.current_player_id = some pid)
    (hrc : s.revealed_cards = [i])
    (hci : s.cards.get? i = some ci) (hcirev : ci.is_revealed = true)
    (hc0 : 0 ≤ cid)
    (hcj : s.cards.get? cid.toNat = some cj) (hcjrev : cj.is_revealed = false)
    (hcjm : cj.is_matched = false)
    (hval : ci.value = cj.value)
    (hbump : bumpScore s.players pid = some ps') :
    reveal_card s cid pid =
      (let cards2 :=
        modifyAt (modifyAt (modifyAt s.cards cid.toNat (fun c => { c with is_revealed := true }))
          i (fun c => { c with is_matched := true })) cid.toNat
          (fun c => { c with is_matched := true })
       let s2 : GameSession :=
        { s with cards := cards2, players := ps', revealed_cards := [] }
       ((if cards2.all (fun c => c.is_matched) then { s2 with state := GameState.finished }
         else s2),
        RevealResult.success cj.id cj.value (some true) (some true))) := by
  have hlt : cid.toNat < s.cards.length := by
    rcases List.get?_eq_some.mp hcj with ⟨hh, _⟩
    exact hh
  have hlt' : cid < (s.cards.length : Int) := by omega
  have hne : ¬ i = cid.toNat := by
    intro hE
    rw [hE, hcj, Option.some.injEq] at hci
    rw [hci] at hcjrev
    rw [hcirev] at hcjrev
    simp at hcjrev
  have hguard : ¬¬(s.current_player_id = some pid ∧ s.state = GameState.inProgress) :=
    not_not.mpr ⟨hcur, hstate⟩
  unfold reveal_card
  rw [if_neg hguard, if_neg (by omega : ¬ ((s.cards.length : Int) ≤ cid))]
  simp only [pyIdx_nonneg _ _ hc0 hlt', hcj]
  rw [if_neg (by simp [hcjm, hcjrev] : ¬ (cj.is_matched = true ∨ cj.is_revealed = true))]
  simp only [hrc, List.singleton_append]
  unfold resolvePair
  simp only [get?_modifyAt_self, get?_modifyAt_ne _ _ _ _ hne, hci, hcj, Option.map_some']
  rw [if_pos (by simpa using hval)]
  simp only [hbump, finish_game]

theorem firstIdx_some_of_mem : ∀ (xs : List String) (a : String), a ∈ xs →
    ∃ k, firstIdx xs a = some k := by
  intro xs
  induction xs with
  | nil => intro a h; simp at h
  | cons x xs ih =>
    intro a h
    by_cases hx : x = a
    · exact ⟨0, by simp [firstIdx, hx]⟩
    · have ha : a ∈ xs := by
        rcases List.mem_cons.mp h with rfl | h'
        · exact absurd rfl hx
        · exact h'
      obtain ⟨k, hk⟩ := ih a ha
      exact ⟨k + 1, by simp [firstIdx, hx, hk]⟩

theorem all_matched_false_of_get? (cs : List Card) (k : Nat) (c : Card)
    (h : cs.get? k = some c) (hm : c.is_matched = false) :
    cs.all (fun c => c.is_matched) = false := by
  have hc : c ∈ cs := List.mem_iff_get?.mpr ⟨k, h⟩
  cases hall : cs.all (fun c => c.is_matched) with
  | false => rfl
  | true =>
    have := List.all_eq_true.mp hall c hc
    simp [hm] at this

/-- Forward evaluation of `switch_turn` when the current player is found. -/
theorem switch_turn_eq (s : GameSession) (pid : String) (k : Nat)
    (hcur : s.current_player_id = some pid)
    (hfi : firstIdx (s.players.map (fun p => p.id)) pid = some k)
    (ps1 ps2 : List Player)
    (hst1 : setTurn s.players pid false = some ps1)
    (hst2 : setTurn ps1 ((s.players.map (fun p => p.id)).getD
      ((k + 1) % (s.players.map (fun p => p.id)).length) "") true = some ps2) :
    switch_turn s = some { s with
      players := ps2,
      current_player_id := some ((s.players.map (fun p => p.id)).getD
        ((k + 1) % (s.players.map (fun p => p.id)).length) "") } := by
  unfold switch_turn
  simp only [hcur, hfi, hst1, hst2]

/-- Evaluation of `reveal_card` on the accepted second pick of a MISMATCHED
pair: the card is revealed, the unresolved list is cleared, the turn passes to
the next player in join order, and the pair of indices is scheduled for the
one-shot hide timer. -/
theorem reveal_mismatch_eq (s : GameSession) (cid : Int) (pid : String) (i : Nat)
    (ci cj : Card)
    (hstate : s.state = GameState.inProgress)
    (hcur : s.current_player_id = some pid)
    (hrc : s.revealed_cards = [i])
    (hci : s.cards.get? i = some ci) (hcirev : ci.is_revealed = true)
    (hc0 : 0 ≤ cid)
    (hcj : s.cards.get? cid.toNat = some cj) (hcjrev : cj.is_revealed = false)
    (hcjm : cj.is_matched = false)
    (hval : ¬ ci.value = cj.value)
    (hmem : ∃ p ∈ s.players, p.id = pid) :
    ∃ ps2,
      reveal_card s cid pid =
        ({ s with cards := modifyAt s.cards cid.toNat (fun c => { c with is_revealed := true }),
                  revealed_cards := [],
                  players := ps2,
                  current_player_id := some (nextAfter s.players pid),
                  pendingHidePairs := s.pendingHidePairs ++ [[i, cid.toNat]] },
         RevealResult.success cj.id cj.value (some false) (some false)) ∧
      ps2.map (fun p => p.id) = s.players.map (fun p => p.id) ∧
      ps2.map (fun p => p.score) = s.players.map (fun p => p.score) ∧
      turnOf ps2 (nextAfter s.players pid) = true ∧
      (¬ pid = nextAfter s.players pid → turnOf ps2 pid = false) := by
  have hlt : cid.toNat < s.cards.length := by
    rcases List.get?_eq_some.mp hcj with ⟨hh, _⟩
    exact hh
  have hlt' : cid < (s.cards.length : Int) := by omega
  have hne : ¬ i = cid.toNat := by
    intro hE
    rw [hE, hcj, Option.some.injEq] at hci
    rw [hci] at hcjrev
    rw [hcirev] at hcjrev
    simp at hcjrev
  -- compute the turn switch
  have hpidmem : pid ∈ s.players.map (fun p => p.id) := by
    obtain ⟨p, hp, hpid⟩ := hmem
    exact List.mem_map.mpr ⟨p, hp, hpid⟩
  obtain ⟨k, hfi⟩ := firstIdx_some_of_mem _ pid hpidmem
  obtain ⟨ps1, hst1, hid1, hsc1⟩ := setTurn_some s.players pid false hmem
  have hklt : k < (s.players.map (fun p => p.id)).length := firstIdx_lt_length _ pid k hfi
  have hnxtmem : (s.players.map (fun p => p.id)).getD
      ((k + 1) % (s.players.map (fun p => p.id)).length) "" ∈
      s.players.map (fun p => p.id) :=
    getD_mem_str _ _ (Nat.mod_lt _ (by omega))
  have hnxtmem1 : (s.players.map (fun p => p.id)).getD
      ((k + 1) % (s.players.map (fun p => p.id)).length) "" ∈
      ps1.map (fun p => p.id) := by rw [hid1]; exact hnxtmem
  have hmem1 : ∃ q ∈ ps1, q.id = (s.players.map (fun p => p.id)).getD
      ((k + 1) % (s.players.map (fun p => p.id)).length) "" := by
    obtain ⟨q, hq, hq2⟩ := List.mem_map.mp hnxtmem1
    exact ⟨q, hq, hq2⟩
  obtain ⟨ps2, hst2, hid2, hsc2⟩ := setTurn_some ps1 _ true hmem1
  have hnxt : nextAfter s.players pid = (s.players.map (fun p => p.id)).getD
      ((k + 1) % (s.players.map (fun p => p.id)).length) "" := by
    unfold nextAfter
    simp only [hfi]
  refine ⟨ps2, ?_, by rw [hid2, hid1], by rw [hsc2, hsc1], ?_, ?_⟩
  · -- the evaluation
    have hguard : ¬¬(s.current_player_id = some pid ∧ s.state = GameState.inProgress) :=
      not_not.mpr ⟨hcur, hstate⟩
    unfold reveal_card
    rw [if_neg hguard, if_neg (by omega : ¬ ((s.cards.length : Int) ≤ cid))]
    simp only [pyIdx_nonneg _ _ hc0 hlt', hcj]
    rw [if_neg (by simp [hcjm, hcjrev] : ¬ (cj.is_matched = true ∨ cj.is_revealed = true))]
    simp only [hrc, List.singleton_append]
    unfold resolvePair
    simp only [get?_modifyAt_self, get?_modifyAt_ne _ _ _ _ hne, hci, hcj, Option.map_some']
    rw [if_neg (by simpa using hval)]
    rw [switch_turn_eq
      { s with
        cards := modifyAt s.cards cid.toNat (fun c => { c with is_revealed := true }),
        revealed_cards := [] } pid k hcur hfi ps1 ps2 hst1 hst2]
    have hallf : (modifyAt s.cards cid.toNat
        (fun c => { c with is_revealed := true })).all (fun c => c.is_matched) = false := by
      apply all_matched_false_of_get? _ cid.toNat ({ cj with is_revealed := true })
      · rw [get?_modifyAt_self, hcj]
        rfl
      · exact hcjm
    simp only [hallf, Bool.false_eq_true, if_false, hnxt]
  · rw [hnxt]
    exact (setTurn_turnOf ps1 ps2 _ true hst2).1
  · intro hpn
    rw [hnxt] at hpn
    have h2 := (setTurn_turnOf ps1 ps2 _ true hst2).2 pid hpn
    have h1 := (setTurn_turnOf s.players ps1 pid false hst1).1
    rw [h2, h1]

/-! ### Invariant preservation -/

theorem start_game_empty (s : GameSession) (choice : Nat) (h : s.players = []) :
    start_game s choice = { s with state := GameState.inProgress } := by
  unfold start_game
  rw [if_pos (by simp [h])]

theorem start_game_eq (s : GameSession) (choice : Nat) (ps' : List Player)
    (hne : ¬ s.players.map (fun p => p.id) = [])
    (hst : setTurn s.players ((s.players.map (fun p => p.id)).getD
      (choice % (s.players.map (fun p => p.id)).length) "") true = some ps') :
    start_game s choice =
      (let base : GameSession := { s with
        state := GameState.inProgress,
        current_player_id := some ((s.players.map (fun p => p.id)).getD
          (choice % (s.players.map (fun p => p.id)).length) ""),
        players := ps' }
       if s.level = "easy" then
        { base with
          cards := s.cards.map (fun c => { c with is_revealed := true }),
          pendingHideAll := s.pendingHideAll + 1 }
       else base) := by
  unfold start_game
  rw [if_neg (by simpa using hne)]
  simp only [hst, Option.getD_some]

theorem sessionInv_join (s : GameSession) (pid name : String) (choice : Nat)
    (hfresh : ∀ q ∈ s.players, ¬ q.id = pid) (hInv : SessionInv s) :
    SessionInv (step s (Op.join pid name choice)) ∧
    ((step s (Op.join pid name choice)).players.map (fun p => p.id) =
        s.players.map (fun p => p.id) ∨
     (step s (Op.join pid name choice)).players.map (fun p => p.id) =
        s.players.map (fun p => p.id) ++ [pid]) := by
  obtain ⟨h1, h2, h3, h4⟩ := hInv
  simp only [step, add_player]
  by_cases hlen : s.players.length < 4
  swap
  · rw [if_neg hlen]
    exact ⟨⟨h1, h2, h3, h4⟩, Or.inl rfl⟩
  rw [if_pos hlen]
  rw [dictInsert_fresh s.players (mkPlayer pid name) (fun q hq => hfresh q hq)]
  have hids1 : (s.players ++ [mkPlayer pid name]).map (fun p => p.id) =
      s.players.map (fun p => p.id) ++ [pid] := by simp [mkPlayer]
  have hsc1 : (s.players ++ [mkPlayer pid name]).map (fun p => p.score) =
      s.players.map (fun p => p.score) ++ [0] := by simp [mkPlayer]
  by_cases h2le : 2 ≤ (s.players ++ [mkPlayer pid name]).length
  swap
  · rw [if_neg h2le]
    dsimp only
    refine ⟨⟨?_, h2, h3, ?_⟩, Or.inr hids1⟩
    · simp only [sumScores] at h1 ⊢
      rw [hsc1]
      simp only [List.sum_append, List.sum_cons, List.sum_nil]
      omega
    · intro c hc
      rw [hids1]
      exact List.mem_append_left _ (h4 c hc)
  · rw [if_pos h2le]
    have hne : ¬ (s.players ++ [mkPlayer pid name]).map (fun p => p.id) = [] := by
      rw [hids1]; simp
    have hlenpos : 0 < ((s.players ++ [mkPlayer pid name]).map (fun p => p.id)).length := by
      rw [hids1]; simp
    have hcurmem : ((s.players ++ [mkPlayer pid name]).map (fun p => p.id)).getD
        (choice % ((s.players ++ [mkPlayer pid name]).map (fun p => p.id)).length) "" ∈
        (s.players ++ [mkPlayer pid name]).map (fun p => p.id) :=
      getD_mem_str _ _ (Nat.mod_lt _ hlenpos)
    have hmemq : ∃ q ∈ s.players ++ [mkPlayer pid name],
        q.id = ((s.players ++ [mkPlayer pid name]).map (fun p => p.id)).getD
          (choice % ((s.players ++ [mkPlayer pid name]).map (fun p => p.id)).length) "" := by
      obtain ⟨q, hq, hq2⟩ := List.mem_map.mp hcurmem
      exact ⟨q, hq, hq2⟩
    obtain ⟨ps2, hst, hid2, hsc2⟩ := setTurn_some (s.players ++ [mkPlayer pid name]) _ true hmemq
    rw [start_game_eq { s with players := s.players ++ [mkPlayer pid name] } choice ps2 hne hst]
    dsimp only
    by_cases hlev : s.level = "easy"
    · rw [if_pos hlev]
      refine ⟨⟨?_, ?_, h3, ?_⟩, Or.inr (by rw [hid2, hids1])⟩
      · simp only [sumScores] at h1 ⊢
        rw [hsc2, hsc1,
          countMatched_map_pres (fun c => { c with is_revealed := true }) (fun c => rfl)]
        simp only [List.sum_append, List.sum_cons, List.sum_nil]
        omega
      · intro i hi
        obtain ⟨c, hc, hcr, hcm⟩ := h2 i hi
        refine ⟨{ c with is_revealed := true }, ?_, rfl, hcm⟩
        rw [List.get?_map, hc]
        rfl
      · intro c hc
        cases hc
        rw [hid2]
        exact hcurmem
    · rw [if_neg hlev]
      refine ⟨⟨?_, h2, h3, ?_⟩, Or.inr (by rw [hid2, hids1])⟩
      · simp only [sumScores] at h1 ⊢
        rw [hsc2, hsc1]
        simp only [List.sum_append, List.sum_cons, List.sum_nil]
        omega
      · intro c hc
        cases hc
        rw [hid2]
        exact hcurmem

theorem sessionInv_reveal (s : GameSession) (cid : Int) (pid : String)
    (hInv : SessionInv s) :
    SessionInv ((reveal_card s cid pid).1) ∧
    (reveal_card s cid pid).1.players.map (fun p => p.id) =
      s.players.map (fun p => p.id) := by
  obtain ⟨h1, h2, h3, h4⟩ := hInv
  unfold reveal_card
  by_cases hg1 : s.current_player_id = some pid ∧ s.state = GameState.inProgress
  swap
  · rw [if_pos hg1]
    exact ⟨⟨h1, h2, h3, h4⟩, rfl⟩
  rw [if_neg (not_not.mpr hg1)]
  by_cases hg2 : (s.cards.length : Int) ≤ cid
  · rw [if_pos hg2]
    exact ⟨⟨h1, h2, h3, h4⟩, rfl⟩
  rw [if_neg hg2]
  cases hpy : pyIdx s.cards.length cid with
  | none =>
    simp only []
    exact ⟨⟨h1, h2, h3, h4⟩, trivial⟩
  | some idx =>
    simp only []
    cases hcard : s.cards.get? idx with
    | none =>
      simp only []
      exact ⟨⟨h1, h2, h3, h4⟩, trivial⟩
    | some card =>
      simp only []
      by_cases hg3 : card.is_matched = true ∨ card.is_revealed = true
      · rw [if_pos hg3]
        exact ⟨⟨h1, h2, h3, h4⟩, rfl⟩
      rw [if_neg hg3]
      rw [not_or, Bool.not_eq_true, Bool.not_eq_true] at hg3
      obtain ⟨hcm, hcr⟩ := hg3
      cases hE : s.revealed_cards with
      | nil =>
        simp only [hE, List.nil_append]
        refine ⟨⟨?_, ?_, ?_, h4⟩, trivial⟩
        · simp only [sumScores]
          rw [countMatched_modifyAt_pres (fun c => { c with is_revealed := true })
            (fun c => rfl)]
          exact h1
        · intro i hi
          rw [List.mem_singleton] at hi
          subst hi
          refine ⟨{ card with is_revealed := true }, ?_, rfl, hcm⟩
          rw [get?_modifyAt_self, hcard]
          rfl
        · simp
      | cons i0 rest =>
        cases rest with
        | cons i1 rest' =>
          exfalso
          rw [hE] at h3
          simp at h3
        | nil =>
          simp only [hE, List.cons_append, List.nil_append]
          unfold resolvePair
          have hi0 : i0 ∈ s.revealed_cards := by rw [hE]; exact List.mem_singleton.mpr rfl
          obtain ⟨c0, hc0, hc0r, hc0m⟩ := h2 i0 hi0
          have hne : ¬ i0 = idx := by
            intro hEq
            rw [hEq, hcard, Option.some.injEq] at hc0
            rw [hc0] at hcr
            rw [hc0r] at hcr
            simp at hcr
          simp only [get?_modifyAt_self, get?_modifyAt_ne _ _ _ _ hne, hc0, hcard,
            Option.map_some']
          by_cases hveq : c0.value = card.value
          · rw [if_pos (by simpa using hveq)]
            have hpidmem : ∃ q ∈ s.players, q.id = pid := by
              obtain ⟨q, hq, hq2⟩ := List.mem_map.mp (h4 pid hg1.1)
              exact ⟨q, hq, hq2⟩
            obtain ⟨ps', hbump, hbid, hbturn, hbsum⟩ := bumpScore_some s.players pid hpidmem
            simp only [hbump]
            have hne' : ¬ idx = i0 := fun hh => hne hh.symm
            have e1 : countMatched (modifyAt s.cards idx
                (fun c => { c with is_revealed := true })) = countMatched s.cards :=
              countMatched_modifyAt_pres (fun c => { c with is_revealed := true })
                (fun c => rfl) s.cards idx
            have e2 : countMatched (modifyAt
                (modifyAt s.cards idx (fun c => { c with is_revealed := true })) i0
                (fun c => { c with is_matched := true })) =
                countMatched (modifyAt s.cards idx
                  (fun c => { c with is_revealed := true })) + 1 := by
              apply countMatched_modifyAt_mark _ _ c0
              · rw [get?_modifyAt_ne _ _ _ _ hne]
                exact hc0
              · exact hc0m
            have e3 : countMatched (modifyAt (modifyAt
                (modifyAt s.cards idx (fun c => { c with is_revealed := true })) i0
                (fun c => { c with is_matched := true })) idx
                (fun c => { c with is_matched := true })) =
                countMatched (modifyAt
                  (modifyAt s.cards idx (fun c => { c with is_revealed := true })) i0
                  (fun c => { c with is_matched := true })) + 1 := by
              apply countMatched_modifyAt_mark _ _ ({ card with is_revealed := true })
              · rw [get?_modifyAt_ne _ _ _ _ hne', get?_modifyAt_self, hcard]
                rfl
              · exact hcm
            have hmain : SessionInv { s with
                cards := modifyAt (modifyAt
                  (modifyAt s.cards idx (fun c => { c with is_revealed := true })) i0
                  (fun c => { c with is_matched := true })) idx
                  (fun c => { c with is_matched := true }),
                players := ps',
                revealed_cards := [] } ∧
                (ps'.map (fun p => p.id) = s.players.map (fun p => p.id)) := by
              refine ⟨⟨?_, ?_, ?_, ?_⟩, hbid⟩
              · simp only [sumScores] at h1 ⊢
                rw [e3, e2, e1, hbsum]
                omega
              · intro i hi
                simp at hi
              · simp
              · intro c hc
                rw [hbid]
                exact h4 c hc
            split
            · exact hmain
            · exact hmain
          · rw [if_neg (by simpa using hveq)]
            split
            next hsw =>
              refine ⟨⟨?_, ?_, ?_, ?_⟩, rfl⟩
              · simp only [sumScores] at h1 ⊢
                rw [countMatched_modifyAt_pres (fun c => { c with is_revealed := true })
                  (fun c => rfl)]
                exact h1
              · intro i hi
                simp at hi
              · simp
              · intro c hc
                exact h4 c hc
            next s3 hsw =>
              obtain ⟨hroom3, hlev3, hcards3, hst3, hrev3, hha3, hhp3, hid3, hsc3,
                c3, hcur3, hmem3⟩ := switch_turn_spec _ s3 hsw
              have hmain : SessionInv { s3 with
                  pendingHidePairs := s3.pendingHidePairs ++ [[i0, idx]] } ∧
                  ({ s3 with pendingHidePairs := s3.pendingHidePairs ++ [[i0, idx]] } :
                    GameSession).players.map (fun p => p.id) =
                  s.players.map (fun p => p.id) := by
                refine ⟨⟨?_, ?_, ?_, ?_⟩, ?_⟩
                · dsimp only
                  simp only [sumScores] at h1 ⊢
                  rw [hsc3, hcards3]
                  dsimp only
                  rw [countMatched_modifyAt_pres (fun c => { c with is_revealed := true })
                    (fun c => rfl)]
                  exact h1
                · dsimp only
                  rw [hrev3]
                  intro i hi
                  simp at hi
                · dsimp only
                  rw [hrev3]
                  simp
                · dsimp only
                  intro c hc
                  rw [hcur3, Option.some.injEq] at hc
                  subst hc
                  rw [hid3]
                  exact hmem3
                · dsimp only
                  rw [hid3]
              split
              · exact hmain
              · exact hmain

theorem sessionInv_mkSession (room level : String) (values : List String) :
    SessionInv (mkSession room level values) := by
  refine ⟨?_, ?_, ?_, ?_⟩
  · simp [sumScores, mkSession, countMatched_mkCards]
  · intro i hi
    simp [mkSession] at hi
  · simp [mkSession]
  · intro c hc
    simp [mkSession] at hc

theorem sessionInv_runTrace : ∀ (ops : List Op) (s : GameSession),
    (∀ op ∈ ops, isJoinOrReveal op = true) → (joinPids ops).Nodup →
    (∀ p ∈ s.players, p.id ∉ joinPids ops) → SessionInv s →
    SessionInv (runTrace s ops) := by
  intro ops
  induction ops with
  | nil => intro s _ _ _ h; exact h
  | cons op rest ih =>
    intro s hops hnd hdisj hInv
    have hrest : ∀ o ∈ rest, isJoinOrReveal o = true :=
      fun o ho => hops o (List.mem_cons_of_mem _ ho)
    show SessionInv (runTrace (step s op) rest)
    cases op with
    | join pid name choice =>
      simp only [joinPids] at hnd hdisj
      rw [List.nodup_cons] at hnd
      obtain ⟨hpidnot, hnd'⟩ := hnd
      have hfresh : ∀ q ∈ s.players, ¬ q.id = pid := by
        intro q hq hEq
        exact hdisj q hq (by rw [hEq]; exact List.mem_cons_self _ _)
      obtain ⟨hInv', hids⟩ := sessionInv_join s pid name choice hfresh hInv
      apply ih _ hrest hnd' ?_ hInv'
      intro p hp
      have hpin : p.id ∈ (step s (Op.join pid name choice)).players.map (fun q => q.id) :=
        List.mem_map.mpr ⟨p, hp, rfl⟩
      rcases hids with hids | hids
      · rw [hids] at hpin
        obtain ⟨q, hq, hq2⟩ := List.mem_map.mp hpin
        intro hc
        exact hdisj q hq (List.mem_cons_of_mem _ (by rw [hq2]; exact hc))
      · rw [hids] at hpin
        rcases List.mem_append.mp hpin with hL | hR
        · obtain ⟨q, hq, hq2⟩ := List.mem_map.mp hL
          intro hc
          exact hdisj q hq (List.mem_cons_of_mem _ (by rw [hq2]; exact hc))
        · rw [List.mem_singleton] at hR
          rw [hR]
          exact hpidnot
    | reveal cidv pidv =>
      simp only [joinPids] at hnd hdisj
      obtain ⟨hInv', hids⟩ := sessionInv_reveal s cidv pidv hInv
      apply ih _ hrest hnd ?_ hInv'
      intro p hp
      have hpin : p.id ∈ (step s (Op.reveal cidv pidv)).players.map (fun q => q.id) :=
        List.mem_map.mpr ⟨p, hp, rfl⟩
      rw [show (step s (Op.reveal cidv pidv)).players.map (fun q => q.id) =
        s.players.map (fun p => p.id) from hids] at hpin
      obtain ⟨q, hq, hq2⟩ := List.mem_map.mp hpin
      intro hc
      exact hdisj q hq (by rw [hq2]; exact hc)
    | fireHideAll =>
      have := hops _ (List.mem_cons_self _ _)
      simp [isJoinOrReveal] at this
    | firePair k =>
      have := hops _ (List.mem_cons_self _ _)
      simp [isJoinOrReveal] at this
    | cleanup pid =>
      have := hops _ (List.mem_cons_self _ _)
      simp [isJoinOrReveal] at this

/-! ### Claim theorems -/

/-- C1: the exactly-one-`is_turn` invariant is broken by the code: after two
players join a room (the random start pick lands on p1) and p1's connection is
cleaned up, the session is still InProgress, the only remaining player has
`is_turn = false` (nobody holds the turn), and `current_player_id` still names
the removed player. -/
theorem turn_invariant_broken_by_cleanup :
    c1Trace.state = GameState.inProgress ∧
    c1Trace.players.map (fun p => (p.id, p.is_turn)) = [("p2", false)] ∧
    countTurn c1Trace.players = 0 ∧
    c1Trace.current_player_id = some "p1" ∧
    ¬ "p1" ∈ c1Trace.players.map (fun p => p.id) := by decide

/-- C5: the Waiting → InProgress transition is NOT one-shot: a third join while
the game is in progress re-runs `start_game`, which re-randomizes the turn
holder and sets its flag without clearing the old one — after the third join
both p1 and p2 have `is_turn = true` and `current_player_id` changed, although
the claim says such a join changes only the player map. -/
theorem third_join_restarts_game :
    c5Two.state = GameState.inProgress ∧
    c5Two.current_player_id = some "p1" ∧
    c5Two.players.map (fun p => (p.id, p.is_turn)) = [("p1", true), ("p2", false)] ∧
    c5Three.current_player_id = some "p2" ∧
    c5Three.players.map (fun p => (p.id, p.is_turn)) =
      [("p1", true), ("p2", true), ("p3", false)] ∧
    countTurn c5Three.players = 2 := by decide

/-- C6: the even-matched-count invariant is broken by the code: in an easy room
a third join re-runs `start_game` (re-revealing the deck and scheduling a new
preview-hide) while card 0 sits in the unresolved list; when the preview-hide
fires it hides card 0, the current player reveals card 0 again, and the
resolution "matches" the single card with itself — the matched count becomes 1,
an odd number. -/
theorem easy_mode_rejoin_self_match_odd_count :
    countMatched c6Trace.cards = 1 ∧
    countMatched c6Trace.cards % 2 = 1 ∧
    c6Trace.state = GameState.inProgress ∧
    sumScores c6Trace = 1 := by decide

/-- C2 counterexample: `card_id = -1` is out of range of the card list, yet
`reveal_card` does not reject it — Python negative indexing wraps it to the
last card, which is revealed with a success response, mutating the session. -/
theorem reveal_negative_index_accepted :
    (reveal_card c2Session (-1) "p1").2 =
      RevealResult.success 15 "card_7" none none ∧
    ¬ (reveal_card c2Session (-1) "p1").1 = c2Session ∧
    (reveal_card c2Session (-1) "p1").1.cards.get? 15 =
      some { id := 15, value := "card_7", is_revealed := true, is_matched := false } := by
  decide

/-- C4 counterexample: the router records no room affinity at all — with the
round-robin strategy over two healthy backends, two sequential connections
(e.g. two requests carrying the same room id sent on separate connections) are
forwarded to two DIFFERENT backends, since `select_server` consults nothing but
the strategy state. -/
theorem router_same_room_different_backend :
    (select_server lbRR).1 = some lbServerA ∧
    (select_server (select_server lbRR).2).1 = some lbServerB ∧
    ¬ lbServerA = lbServerB := by decide

/-- C10 counterexample: a history made only of joins and reveals on which the
score sum is NOT half the matched count: p1 wins a pair (score 1, two matched
cards), then rejoins the room — the dict assignment replaces the player object
with a fresh score-0 one, so the scores sum to 0 while 2 cards are matched. -/
theorem rejoin_resets_score_breaks_score_sum :
    (∀ op ∈ c10Ops, isJoinOrReveal op = true) ∧
    countMatched c10Trace.cards = 2 ∧
    sumScores c10Trace = 0 ∧
    ¬ 2 * sumScores c10Trace = countMatched c10Trace.cards := by decide

/-- C3: when the current-turn player's accepted reveal makes the unresolved
list reach exactly two entries: on equal values both cards become matched, the
acting player's score rises by exactly 1, the list is cleared, the response
carries match = true / continue_turn = true and the turn does not change; on
unequal values the list is cleared, the turn passes to the next player in join
order (wrap-around), the response carries match = false / continue_turn =
false, and a one-shot scheduled hide re-hides exactly those two cards and no
others. -/
theorem reveal_pair_resolution_spec (s : GameSession) (cid : Int) (pid : String) (i : Nat)
    (ci cj : Card)
    (hstate : s.state = GameState.inProgress)
    (hcur : s.current_player_id = some pid)
    (hrc : s.revealed_cards = [i])
    (hci : s.cards.get? i = some ci) (hcirev : ci.is_revealed = true)
    (hc0 : 0 ≤ cid)
    (hcj : s.cards.get? cid.toNat = some cj) (hcjrev : cj.is_revealed = false)
    (hcjm : cj.is_matched = false)
    (hmem : ∃ p ∈ s.players, p.id = pid) :
    (ci.value = cj.value →
      (∃ c, (reveal_card s cid pid).1.cards.get? i = some c ∧ c.is_matched = true) ∧
      (∃ c, (reveal_card s cid pid).1.cards.get? cid.toNat = some c ∧ c.is_matched = true) ∧
      scoreOf (reveal_card s cid pid).1.players pid = scoreOf s.players pid + 1 ∧
      (reveal_card s cid pid).1.revealed_cards = [] ∧
      (reveal_card s cid pid).2 = RevealResult.success cj.id cj.value (some true) (some true) ∧
      (reveal_card s cid pid).1.current_player_id = some pid ∧
      (reveal_card s cid pid).1.players.map (fun p => (p.id, p.is_turn)) =
        s.players.map (fun p => (p.id, p.is_turn))) ∧
    (¬ ci.value = cj.value →
      (reveal_card s cid pid).1.revealed_cards = [] ∧
      (reveal_card s cid pid).2 =
        RevealResult.success cj.id cj.value (some false) (some false) ∧
      (reveal_card s cid pid).1.current_player_id = some (nextAfter s.players pid) ∧
      turnOf (reveal_card s cid pid).1.players (nextAfter s.players pid) = true ∧
      (¬ pid = nextAfter s.players pid →
        turnOf (reveal_card s cid pid).1.players pid = false) ∧
      (reveal_card s cid pid).1.pendingHidePairs = s.pendingHidePairs ++ [[i, cid.toNat]] ∧
      (fireHidePair (reveal_card s cid pid).1 s.pendingHidePairs.length).pendingHidePairs =
        s.pendingHidePairs ∧
      (∀ n, ¬ n = i → ¬ n = cid.toNat →
        (fireHidePair (reveal_card s cid pid).1 s.pendingHidePairs.length).cards.get? n =
          (reveal_card s cid pid).1.cards.get? n) ∧
      (fireHidePair (reveal_card s cid pid).1 s.pendingHidePairs.length).cards.get? i =
        some { ci with is_revealed := false } ∧
      (fireHidePair (reveal_card s cid pid).1 s.pendingHidePairs.length).cards.get? cid.toNat =
        some cj) := by
  have hne : ¬ i = cid.toNat := by
    intro hE
    rw [hE, hcj, Option.some.injEq] at hci
    rw [hci] at hcjrev
    rw [hcirev] at hcjrev
    simp at hcjrev
  have hne' : ¬ cid.toNat = i := fun hh => hne hh.symm
  constructor
  · intro hval
    obtain ⟨ps', hbump, hbid, hbturn, hbsum⟩ := bumpScore_some s.players pid hmem
    have heq := reveal_match_eq s cid pid i ci cj ps' hstate hcur hrc hci hcirev hc0 hcj
      hcjrev hcjm hval hbump
    rw [heq]
    dsimp only
    have hsc := (bumpScore_scoreOf s.players ps' pid hbump).1
    split
    all_goals refine ⟨⟨{ ci with is_matched := true }, ?_, rfl⟩,
      ⟨{ cj with is_revealed := true, is_matched := true }, ?_, rfl⟩, hsc, rfl, rfl, hcur, hbturn⟩
    all_goals try (
      rw [get?_modifyAt_ne _ _ _ _ hne, get?_modifyAt_self,
        get?_modifyAt_ne _ _ _ _ hne, hci]
      rfl)
    all_goals
      rw [get?_modifyAt_self, get?_modifyAt_ne _ _ _ _ hne', get?_modifyAt_self, hcj]
      rfl
  · intro hval
    obtain ⟨ps2, heq, hid2, hsc2, hturn1, hturn2⟩ := reveal_mismatch_eq s cid pid i ci cj
      hstate hcur hrc hci hcirev hc0 hcj hcjrev hcjm hval hmem
    rw [heq]
    dsimp only
    refine ⟨rfl, rfl, rfl, hturn1, hturn2, rfl, ?_, ?_, ?_, ?_⟩
    · unfold fireHidePair
      dsimp only
      simp only [List.get?_concat_length]
      exact eraseIdx_concat_self _ _
    · intro n hni hnt
      unfold fireHidePair
      dsimp only
      simp only [List.get?_concat_length]
      unfold hide_cards_later
      simp only [List.foldl_cons, List.foldl_nil]
      rw [get?_modifyAt_ne _ _ _ _ hnt, get?_modifyAt_ne _ _ _ _ hni]
    · unfold fireHidePair
      dsimp only
      simp only [List.get?_concat_length]
      unfold hide_cards_later
      simp only [List.foldl_cons, List.foldl_nil]
      rw [get?_modifyAt_ne _ _ _ _ hne, get?_modifyAt_self,
        get?_modifyAt_ne _ _ _ _ hne, hci]
      rfl
    · unfold fireHidePair
      dsimp only
      simp only [List.get?_concat_length]
      unfold hide_cards_later
      simp only [List.foldl_cons, List.foldl_nil]
      rw [get?_modifyAt_self, get?_modifyAt_ne _ _ _ _ hne', get?_modifyAt_self, hcj]
      simp only [Option.map_some', Option.some.injEq]
      cases cj
      dsimp only at hcjrev ⊢
      rw [hcjrev]

/-- C10 (amended): for every session history consisting only of joins and
reveals in which no join reuses a player id already joined (join ids pairwise
distinct — a rejoin would reset that player's score), twice the sum of all
players' scores equals the number of matched cards, i.e. the score sum is
exactly half the matched count. -/
theorem score_sum_half_matched_of_nodup_joins (room level : String)
    (values : List String) (ops : List Op)
    (hops : ∀ op ∈ ops, isJoinOrReveal op = true)
    (hnd : (joinPids ops).Nodup) :
    2 * sumScores (runTrace (mkSession room level values) ops) =
      countMatched (runTrace (mkSession room level values) ops).cards :=
  (sessionInv_runTrace ops (mkSession room level values) hops hnd
    (by intro p hp; simp [mkSession] at hp) (sessionInv_mkSession room level values)).1

/-- Witness for C10 (amended): two joins and a matching pair of reveals give
score sum 1 and 2 matched cards. -/
theorem score_sum_half_matched_of_nodup_joins_witness :
    2 * sumScores (runTrace (mkSession "ROOMW" "normal" shuffledDeck) c10WitnessOps) =
      countMatched (runTrace (mkSession "ROOMW" "normal" shuffledDeck) c10WitnessOps).cards :=
  score_sum_half_matched_of_nodup_joins "ROOMW" "normal" shuffledDeck c10WitnessOps
    (by decide) (by decide)

/-- Witness for C3 at a concrete session: with card 0 unresolved, p1 reveals
card 8 (the matching pair) — the score rises by exactly one and the response
carries match = true, continue_turn = true. -/
theorem reveal_pair_resolution_spec_witness :
    scoreOf (reveal_card c3Session 8 "p1").1.players "p1" =
      scoreOf c3Session.players "p1" + 1 ∧
    (reveal_card c3Session 8 "p1").2 =
      RevealResult.success 8 "card_0" (some true) (some true) := by
  have h := reveal_pair_resolution_spec c3Session 8 "p1" 0
    { id := 0, value := "card_0", is_revealed := true, is_matched := false }
    { id := 8, value := "card_0", is_revealed := false, is_matched := false }
    (by decide) (by decide) (by decide) (by decide) (by decide) (by decide)
    (by decide) (by decide) (by decide) (by decide)
  obtain ⟨hA, -⟩ := h
  obtain ⟨-, -, hsc, -, hres, -, -⟩ := hA (by decide)
  exact ⟨hsc, hres⟩

/-- C7: a resolution that matches the last unmatched pair moves the session to
Finished with a match = true / continue_turn = true response; `finish_game`
returns the players sorted by score descending with ties keeping join order
(a permutation of the join-order list, pairwise descending, and equal-score
players appear in exactly their join order); and a Finished session rejects
every reveal with "Not your turn" and no state change. -/
theorem finish_ranking_and_terminal_reject :
    (∀ (s : GameSession) (cid : Int) (pid : String) (i : Nat) (ci cj : Card)
      (ps' : List Player),
      s.state = GameState.inProgress →
      s.current_player_id = some pid →
      s.revealed_cards = [i] →
      s.cards.get? i = some ci → ci.is_revealed = true →
      0 ≤ cid →
      s.cards.get? cid.toNat = some cj → cj.is_revealed = false → cj.is_matched = false →
      ci.value = cj.value →
      bumpScore s.players pid = some ps' →
      (∀ k, k < s.cards.length → ¬ k = i → ¬ k = cid.toNat →
        ((s.cards.get? k).all (fun c => c.is_matched)) = true) →
      (reveal_card s cid pid).1.state = GameState.finished ∧
      (reveal_card s cid pid).2 =
        RevealResult.success cj.id cj.value (some true) (some true)) ∧
    (∀ t : GameSession,
      (finish_game t).1.state = GameState.finished ∧
      (finish_game t).1.players = t.players ∧
      List.Perm (finish_game t).2 (t.players.map (fun p => (p.id, p.score))) ∧
      List.Pairwise (fun a b => b.2 ≤ a.2) (finish_game t).2 ∧
      (∀ n : Nat, (finish_game t).2.filter (fun y => y.2 == n) =
        (t.players.map (fun p => (p.id, p.score))).filter (fun y => y.2 == n))) ∧
    (∀ (t : GameSession) (cid : Int) (pid : String), t.state = GameState.finished →
      reveal_card t cid pid = (t, RevealResult.failure "Not your turn")) := by
  refine ⟨?_, ?_, ?_⟩
  · intro s cid pid i ci cj ps' hstate hcur hrc hci hcirev hc0 hcj hcjrev hcjm hval hbump hall
    have hne : ¬ i = cid.toNat := by
      intro hE
      rw [hE, hcj, Option.some.injEq] at hci
      rw [hci] at hcjrev
      rw [hcirev] at hcjrev
      simp at hcjrev
    have hne' : ¬ cid.toNat = i := fun hh => hne hh.symm
    rw [reveal_match_eq s cid pid i ci cj ps' hstate hcur hrc hci hcirev hc0 hcj hcjrev
      hcjm hval hbump]
    dsimp only
    have hallm : (modifyAt (modifyAt (modifyAt s.cards cid.toNat
        (fun c => { c with is_revealed := true })) i (fun c => { c with is_matched := true }))
        cid.toNat (fun c => { c with is_matched := true })).all
        (fun c => c.is_matched) = true := by
      rw [List.all_eq_true]
      intro x hx
      obtain ⟨n, hn⟩ := List.mem_iff_get?.mp hx
      by_cases h1 : n = cid.toNat
      · subst h1
        rw [get?_modifyAt_self, get?_modifyAt_ne _ _ _ _ hne', get?_modifyAt_self, hcj] at hn
        simp only [Option.map_some', Option.some.injEq] at hn
        rw [← hn]
      · by_cases h2 : n = i
        · subst h2
          rw [get?_modifyAt_ne _ _ _ _ hne, get?_modifyAt_self,
            get?_modifyAt_ne _ _ _ _ hne, hci] at hn
          simp only [Option.map_some', Option.some.injEq] at hn
          rw [← hn]
        · rw [get?_modifyAt_ne _ _ _ _ h1, get?_modifyAt_ne _ _ _ _ h2,
            get?_modifyAt_ne _ _ _ _ h1] at hn
          have hlen : n < s.cards.length := by
            rcases List.get?_eq_some.mp hn with ⟨hh, _⟩
            exact hh
          have hko := hall n hlen h2 h1
          rw [hn] at hko
          simpa using hko
    rw [if_pos hallm]
    exact ⟨rfl, rfl⟩
  · intro t
    refine ⟨rfl, rfl, ?_, ?_, ?_⟩
    · exact perm_sortByScoreDesc _
    · exact sorted_sortByScoreDesc _
    · intro n
      exact filter_sortByScoreDesc n _
  · intro t cid pid hfin
    have hg : ¬(t.current_player_id = some pid ∧ t.state = GameState.inProgress) := by
      intro hand
      rw [hfin] at hand
      cases hand.2
    unfold reveal_card
    rw [if_pos hg]

/-- Witness for C7: at a session where only the pair 0/8 is unmatched and card
0 is unresolved, revealing card 8 finishes the game. -/
theorem finish_ranking_and_terminal_reject_witness :
    (reveal_card c7Session 8 "p1").1.state = GameState.finished ∧
    (reveal_card c7Session 8 "p1").2 =
      RevealResult.success 8 "card_0" (some true) (some true) :=
  finish_ranking_and_terminal_reject.1 c7Session 8 "p1" 0
    { id := 0, value := "card_0", is_revealed := true, is_matched := false }
    { id := 8, value := "card_0", is_revealed := false, is_matched := false }
    [{ id := "p1", name := "P1", score := 7, is_turn := true },
     { id := "p2", name := "P2", score := 1, is_turn := false }]
    (by decide) (by decide) (by decide) (by decide) (by decide) (by decide)
    (by decide) (by decide) (by decide) (by decide) (by decide) (by decide)

/-- C8: the snapshot's card entry reports revealed = is_revealed ∨ is_matched
and carries the card's value exactly when the card is revealed or matched;
a card that is neither revealed nor matched serializes with value = null, and
every value that does appear in the snapshot belongs to a revealed-or-matched
card. -/
theorem snapshot_hides_unrevealed_values (s : GameSession) :
    (∀ (k : Nat) (c : Card), s.cards.get? k = some c →
      (get_game_state s).cards.get? k = some
        { id := c.id, revealed := c.is_revealed || c.is_matched,
          value := if c.is_revealed || c.is_matched then some c.value else none,
          matched := c.is_matched } ∧
      (c.is_revealed = false → c.is_matched = false →
        (get_game_state s).cards.get? k =
          some { id := c.id, revealed := false, value := none, matched := false })) ∧
    (∀ v ∈ (get_game_state s).cards, v.value = none ∨
      ∃ c ∈ s.cards, (c.is_revealed = true ∨ c.is_matched = true) ∧
        v.value = some c.value ∧ v.id = c.id) := by
  constructor
  · intro k c hk
    constructor
    · unfold get_game_state
      dsimp only
      rw [List.get?_map, hk]
      rfl
    · intro hr hm
      unfold get_game_state
      dsimp only
      rw [List.get?_map, hk]
      simp [hr, hm]
  · intro v hv
    unfold get_game_state at hv
    dsimp only at hv
    obtain ⟨c, hc, hcv⟩ := List.mem_map.mp hv
    by_cases h : (c.is_revealed || c.is_matched) = true
    · right
      refine ⟨c, hc, by simpa [Bool.or_eq_true] using h, ?_, ?_⟩
      · rw [← hcv]
        simp [h]
      · rw [← hcv]
    · left
      rw [← hcv]
      simp only [Bool.or_eq_true] at h
      push_neg at h
      simp [h.1, h.2]

/-- Witness for C8: in a session with a matched pair, a transiently revealed
card and hidden cards, the hidden card 2 serializes with value = null. -/
theorem snapshot_hides_unrevealed_values_witness :
    (get_game_state c8Session).cards.get? 2 =
      some { id := 2, revealed := false, value := none, matched := false } :=
  ((snapshot_hides_unrevealed_values c8Session).1 2
    { id := 2, value := "card_2", is_revealed := false, is_matched := false }
    (by decide)).2 (by decide) (by decide)

/-- C2 (amended): `reveal_card` rejects with "Not your turn" when the caller is
not the current player or the state is not InProgress; with "Invalid card
selection" when `card_id` is at least the card count, or when the
(Python-)indexed target is already matched or revealed; a `card_id` below
minus the card count raises an IndexError surfaced as a generic error; and in
every one of these cases the session is returned unchanged.  (What the
original claim misses: `-len ≤ card_id < 0` is NOT rejected — Python indexing
wraps it to `len + card_id`; see the counterexample.) -/
theorem reveal_rejection_cases (s : GameSession) (cid : Int) (pid : String) :
    (¬(s.current_player_id = some pid ∧ s.state = GameState.inProgress) →
      reveal_card s cid pid = (s, RevealResult.failure "Not your turn")) ∧
    ((s.current_player_id = some pid ∧ s.state = GameState.inProgress) →
      ((s.cards.length : Int) ≤ cid →
        reveal_card s cid pid = (s, RevealResult.failure "Invalid card selection")) ∧
      (cid + (s.cards.length : Int) < 0 →
        reveal_card s cid pid = (s, RevealResult.pyError)) ∧
      (∀ (idx : Nat) (c : Card), ¬ (s.cards.length : Int) ≤ cid →
        pyIdx s.cards.length cid = some idx → s.cards.get? idx = some c →
        (c.is_matched = true ∨ c.is_revealed = true) →
        reveal_card s cid pid = (s, RevealResult.failure "Invalid card selection"))) := by
  constructor
  · intro hg
    unfold reveal_card
    rw [if_pos hg]
  · intro hg
    refine ⟨?_, ?_, ?_⟩
    · intro hlen
      unfold reveal_card
      rw [if_neg (not_not.mpr hg), if_pos hlen]
    · intro hneg
      unfold reveal_card
      rw [if_neg (not_not.mpr hg), if_neg (by omega)]
      have hnone : pyIdx s.cards.length cid = none := by
        unfold pyIdx
        rw [if_neg (by omega), if_neg (by omega)]
      simp only [hnone]
    · intro idx c hlen hpy hc hmr
      unfold reveal_card
      rw [if_neg (not_not.mpr hg), if_neg hlen]
      simp only [hpy, hc]
      rw [if_pos hmr]

/-- Witness for C2 (amended): an index past the deck and an index far below it
are rejected without mutation, and a non-current player is turned away. -/
theorem reveal_rejection_cases_witness :
    reveal_card c2Session 99 "p1" =
      (c2Session, RevealResult.failure "Invalid card selection") ∧
    reveal_card c2Session 0 "p2" = (c2Session, RevealResult.failure "Not your turn") ∧
    reveal_card c2Session (-99) "p1" = (c2Session, RevealResult.pyError) :=
  ⟨((reveal_rejection_cases c2Session 99 "p1").2 (by decide)).1 (by decide),
   (reveal_rejection_cases c2Session 0 "p2").1 (by decide),
   ((reveal_rejection_cases c2Session (-99) "p1").2 (by decide)).2.1 (by decide)⟩

/-- C4 (amended): the router keeps no affinity state of any kind — the backend
for a connection is chosen by `select_server` from the balancer state alone
(no room or player identifier is ever consulted), and under round_robin the
selection is `healthy[index % n]` with the counter incremented, so sequential
connections carrying the same room id rotate across backends. -/
theorem select_server_roundrobin_no_affinity (lb : LoadBalancer)
    (hstrat : lb.current_strategy = "round_robin")
    (hne : ¬ get_healthy_servers lb = []) :
    select_server lb =
      ((get_healthy_servers lb).get?
        (lb.round_robin_index % (get_healthy_servers lb).length),
       { lb with round_robin_index := lb.round_robin_index + 1 }) := by
  unfold select_server
  rw [if_pos hstrat]
  unfold roundRobin
  dsimp only
  rw [if_neg (by simpa using hne)]

/-- Witness for C4 (amended): the first selection of the two-backend
round-robin balancer is backend A with the counter moved to 1. -/
theorem select_server_roundrobin_no_affinity_witness :
    select_server lbRR = (some lbServerA, { lbRR with round_robin_index := 1 }) := by
  have h := select_server_roundrobin_no_affinity lbRR (by decide) (by decide)
  rw [h]
  decide
